import Mathlib

/-!
Verification development for the HIKAKIN-Info-Bot repository (src/main.py).

The Python code is shallowly embedded: Python `str` values are modelled as
`List Char` (a Python string is a sequence of code points), Python `float`
time values as `ℚ` (the claims are about exact arithmetic relations on the
timestamps, not about rounding), Python `int` as `Int`/`Nat`, fallible code
as `Except`/`Option`, and the effects of the stateful components (token
manager, publish queue, stream monitor) as explicit state passing together
with event traces.
-/

/-! ## Python string primitives

`strStartsWith needle hay` models `hay.startswith(needle)`;
`pyContains needle hay` models `needle in hay`;
`pySliceTo s n` models the slice `s[:n]` including Python's negative-index
convention (`stop = max(0, len(s) + n)` for `n < 0`). -/

def strStartsWith : List Char → List Char → Bool
  | [], _ => true
  | _ :: _, [] => false
  | a :: as, b :: bs => a = b && strStartsWith as bs

def pyContains (needle : List Char) : List Char → Bool
  | [] => needle.isEmpty
  | b :: bs => strStartsWith needle (b :: bs) || pyContains needle bs

def pySliceTo (s : List Char) (n : Int) : List Char :=
  if n < 0 then s.take (s.length - min s.length n.natAbs) else s.take n.toNat

/-- Python whitespace class `\s` restricted to its ASCII members (the chat
messages the system handles are compared by this class; the model fixes the
character class explicitly). -/
def pyIsSpace (c : Char) : Bool :=
  c = ' ' || c = '\t' || c = '\n' || c = '\r' || c = '\x0b' || c = '\x0c'

/-- One pass of `re.sub(r"\s+", " ", text)`: every maximal run of whitespace
becomes a single space.  The boolean argument records whether the previous
consumed character was whitespace. -/
def collapseWsGo : List Char → Bool → List Char
  | [], _ => []
  | c :: rest, inWs =>
    if pyIsSpace c then
      if inWs then collapseWsGo rest true else ' ' :: collapseWsGo rest true
    else c :: collapseWsGo rest false

def collapseWs (s : List Char) : List Char := collapseWsGo s false

/-- Python `str.strip()` over the same whitespace class. -/
def pyStrip (s : List Char) : List Char :=
  ((s.dropWhile pyIsSpace).reverse.dropWhile pyIsSpace).reverse

/-! ## Text-formatting helpers of src/main.py -/

/-- `MAX_TWEET_LENGTH = 280`. -/
def MAX_TWEET_LENGTH : Int := 280

/-- `POST_HASHTAG = "#ヒカキン"`. -/
def POST_HASHTAG : List Char := ['#', 'ヒ', 'カ', 'キ', 'ン']

/-- `POST_HEADER = "【新着コメント😎】"`. -/
def POST_HEADER : List Char := ['【', '新', '着', 'コ', 'メ', 'ン', 'ト', '😎', '】']

/-- `normalize_message_text`: collapse whitespace runs to single spaces and
trim the ends. -/
def normalize_message_text (text : List Char) : List Char :=
  pyStrip (collapseWs text)

/-- `truncate_for_x(text, max_length)` from src/main.py lines 1068-1076. -/
def truncate_for_x (text : List Char) (maxLength : Int) : List Char :=
  if (text.length : Int) ≤ maxLength then text
  else if maxLength ≤ 3 then pySliceTo text maxLength
  else pySliceTo text (maxLength - 3) ++ ['.', '.', '.']

/-- `append_hashtag(text, hashtag, max_length)` from src/main.py lines
1080-1098. -/
def append_hashtag (text hashtag : List Char) (maxLength : Int) : List Char :=
  if pyContains hashtag text then text
  else
    if (text.length : Int) + (('\n' :: '\n' :: hashtag).length : Int) ≤ maxLength then
      text ++ ('\n' :: '\n' :: hashtag)
    else
      if maxLength - (('\n' :: '\n' :: hashtag).length : Int) ≤ 0 then
        truncate_for_x hashtag maxLength
      else
        truncate_for_x text (maxLength - (('\n' :: '\n' :: hashtag).length : Int))
          ++ ('\n' :: '\n' :: hashtag)

/-- `build_tweet(message)`: header, blank line, body, truncated to 280. -/
def build_tweet (message : List Char) : List Char :=
  truncate_for_x (POST_HEADER ++ '\n' :: '\n' :: message) MAX_TWEET_LENGTH

/-- `" ".join(f"@:m" for m in mentions)` part of `apply_reply_mentions`. -/
def mentionPrefixOf (mentions : List (List Char)) : List Char :=
  List.intercalate [' '] (mentions.map (fun m => '@' :: m))

/-- `apply_reply_mentions(text, mentions)` from src/main.py lines 1111-1123. -/
def apply_reply_mentions (text : List Char) (mentions : List (List Char)) : List Char :=
  if mentions.isEmpty then text
  else truncate_for_x (mentionPrefixOf mentions ++ ' ' :: text) MAX_TWEET_LENGTH

/-- The final payload text built inside `XPoster._post_to_x` (lines
1375-1406): optionally prepend reply mentions, then `append_hashtag` with the
280-character limit as the last transform. -/
def post_to_x_text (jobText : List Char) (mentionedUsersMode : Bool)
    (mentions : List (List Char)) : List Char :=
  append_hashtag
    (if mentionedUsersMode then apply_reply_mentions jobText mentions else jobText)
    POST_HASHTAG MAX_TWEET_LENGTH

/-! ## TwitchTokenManager (src/main.py lines 637-715)

The manager's state is its access token, recorded expiry (monotonic clock,
modelled as `ℚ`) and current refresh token.  `asyncio.Lock` serializes every
`get_access_token` call in its entirety, so concurrent callers are modelled
as a sequence of serialized calls at a common arrival instant.  The HTTP
refresh response is modelled as the decoded JSON fields the code inspects;
`expires_in := none` covers both an absent field and a non-integer value
(both fall back to 3600 in the code). -/

structure TokenState where
  accessToken : Option String
  expiresAt : ℚ
  refreshTokenStored : String
  deriving Repr, DecidableEq

structure TokenResponse where
  access_token : Option String
  refresh_token : Option String
  expires_in : Option Int
  deriving Repr, DecidableEq

/-- `TOKEN_REFRESH_MARGIN_SECONDS = 60.0`. -/
def TOKEN_REFRESH_MARGIN_SECONDS : ℚ := 60

/-- `TwitchTokenManager._is_token_valid` (lines 665-669). -/
def is_token_valid (st : TokenState) (now : ℚ) : Bool :=
  decide (now < st.expiresAt - TOKEN_REFRESH_MARGIN_SECONDS)

/-- Python truthiness of `self._access_token`. -/
def tokenTruthy (st : TokenState) : Bool :=
  match st.accessToken with
  | some t => !(t == "")
  | none => false

/-- The `expires_in` handling of `_refresh_token_locked`: non-integer or
non-positive values fall back to 3600 seconds. -/
def effectiveExpiresIn (resp : TokenResponse) : Int :=
  match resp.expires_in with
  | some n => if n ≤ 0 then 3600 else n
  | none => 3600

/-- The refresh-token rotation of `_refresh_token_locked`: a non-empty
string in the response replaces the stored refresh token. -/
def rotatedRefresh (st : TokenState) (resp : TokenResponse) : String :=
  match resp.refresh_token with
  | some r => if r = "" then st.refreshTokenStored else r
  | none => st.refreshTokenStored

/-- `TwitchTokenManager._refresh_token_locked` (lines 672-715), given the
decoded token-endpoint response.  A missing or empty `access_token` raises
(`Except.error`), mirroring the `ValueError`. -/
def refresh_token_locked (st : TokenState) (resp : TokenResponse) (now : ℚ) :
    Except String TokenState :=
  match resp.access_token with
  | none => .error ("access_token missing in token response")
  | some tok =>
    if tok = "" then .error ("access_token missing in token response")
    else
      .ok { accessToken := some tok
            expiresAt := now + (effectiveExpiresIn resp : ℚ)
            refreshTokenStored := rotatedRefresh st resp }

/-- The refresh-and-return tail of `get_access_token` (lines 659-662). -/
def get_access_token_refresh (st : TokenState) (now : ℚ) (resp : TokenResponse) :
    Except String (String × TokenState × Bool) :=
  match refresh_token_locked st resp now with
  | .error e => .error e
  | .ok st' =>
    match st'.accessToken with
    | some tok =>
      if tok == "" then .error ("failed to obtain Twitch access token")
      else .ok (tok, st', true)
    | none => .error ("failed to obtain Twitch access token")

/-- `TwitchTokenManager.get_access_token` (lines 652-662), executed under the
lock.  Returns the token, the post-call state, and whether a refresh request
was issued. -/
def get_access_token (st : TokenState) (now : ℚ) (resp : TokenResponse) :
    Except String (String × TokenState × Bool) :=
  match st.accessToken with
  | some tok =>
    if !(tok == "") && is_token_valid st now then .ok (tok, st, false)
    else get_access_token_refresh st now resp
  | none => get_access_token_refresh st now resp

/-- `n` concurrent callers of `get_access_token` arriving at instant `t`
while the lock is contended: the lock serializes them, and each observes the
state left by the previous one.  Returns the final state and the total
number of outbound refresh requests. -/
def process_concurrent_callers (st : TokenState) (t : ℚ) (resp : TokenResponse) :
    Nat → Except String (TokenState × Nat)
  | 0 => .ok (st, 0)
  | n + 1 =>
    match get_access_token st t resp with
    | .error e => .error e
    | .ok (_, st', refreshed) =>
      match process_concurrent_callers st' t resp n with
      | .error e => .error e
      | .ok (stf, c) => .ok (stf, (if refreshed then 1 else 0) + c)

/-! ## XPoster publish queue and worker (src/main.py lines 1294-1429)

`_enqueue_job` uses `asyncio.Queue.put_nowait` on a bounded queue: the job is
dropped (and logged) when the queue is full, never blocking the producer.
The single worker drains jobs in FIFO order; before each publish it waits via
`_wait_for_interval`, and `_last_post_time` is assigned only after a
successful `create_tweet` call (the assignment is inside the `try` block, so
a failed publish leaves it unchanged). -/

/-- One publish job as the worker sees it: the instant the worker starts
handling it, whether the outbound API call succeeds, and how long the call
takes. -/
structure PostAttempt where
  ready : ℚ
  success : Bool
  dur : ℚ
  deriving Repr, DecidableEq

/-- `XPoster._wait_for_interval` (lines 1365-1372): returns the instant at
which the publish executes, given the stored `_last_post_time`. -/
def wait_for_interval (interval last now : ℚ) : ℚ :=
  if interval - (now - last) > 0 then now + (interval - (now - last)) else now

/-- `XPoster._post_to_x` timing behaviour (lines 1375-1415): the execution
instant of the publish and the updated `_last_post_time` (updated to the
completion instant only on success; left unchanged on failure). -/
def post_to_x_exec (interval last : ℚ) (a : PostAttempt) : ℚ × ℚ :=
  (wait_for_interval interval last a.ready,
   if a.success then wait_for_interval interval last a.ready + a.dur else last)

/-- `XPoster._worker` (lines 1418-1429) over a list of jobs: the sequence of
publish execution instants. -/
def run_poster (interval : ℚ) : ℚ → List PostAttempt → List ℚ
  | _, [] => []
  | last, a :: rest =>
    (post_to_x_exec interval last a).1
      :: run_poster interval (post_to_x_exec interval last a).2 rest

/-! ## Bounded FIFO queue of XPoster (src/main.py lines 1312, 1345-1352, 1418-1429)

`asyncio.Queue(maxsize=queue_size)` with `put_nowait`: a put on a full queue
raises `QueueFull` and the job is dropped (logged), without blocking the
producer.  The single worker consumes from the front.  A poll of the empty
queue simply waits, modelled as a no-op dequeue. -/

/-- `asyncio.Queue.put_nowait` as used by `XPoster._enqueue_job`: the new
queue and whether the job was accepted. -/
def put_nowait {α : Type} (cap : Nat) (q : List α) (j : α) : List α × Bool :=
  if cap ≤ q.length then (q, false) else (q ++ [j], true)

inductive QueueOp (α : Type) where
  | enq (j : α)
  | deq
  deriving Repr, DecidableEq

structure QueueRun (α : Type) where
  final : List α
  processed : List α
  accepted : List α
  dropped : List α
  deriving Repr, DecidableEq

/-- A serialized run of producer enqueues and worker dequeues against the
bounded queue: final queue contents, jobs processed by the worker in order,
jobs accepted into the queue in order, and jobs dropped at enqueue time. -/
def run_queue {α : Type} (cap : Nat) : List (QueueOp α) → List α → QueueRun α
  | [], q => ⟨q, [], [], []⟩
  | .enq j :: rest, q =>
    if (put_nowait cap q j).2 then
      let r := run_queue cap rest (put_nowait cap q j).1
      ⟨r.final, r.processed, j :: r.accepted, r.dropped⟩
    else
      let r := run_queue cap rest q
      ⟨r.final, r.processed, r.accepted, j :: r.dropped⟩
  | .deq :: rest, q =>
    match q with
    | [] => run_queue cap rest []
    | j :: q' =>
      let r := run_queue cap rest q'
      ⟨r.final, j :: r.processed, r.accepted, r.dropped⟩

/-! ## TwitchIRCListener (src/main.py lines 1445-1602)

Lines arrive one at a time (CRLF already stripped by the read loop, so a
line contains no newline).  `_handle_irc_line` answers keep-alive probes,
strips tag metadata, parses `PRIVMSG` lines with the fixed regular
expression `^:(?P<user>[^!]+)![^ ]+ PRIVMSG #(?P<channel>[^ ]+)
:(?P<message>.*)$` (the negated classes are deterministic: each matches the
maximal run up to its sentinel character, so the regex is embedded as a
recursive descent), filters by channel and fixed target user, normalizes the
body, and enqueues the formatted tweet.  `settings.twitch_channel` is stored
lowercased by `normalize_channel_name` in `load_settings`, which the
filter-equivalence theorem records as a hypothesis. -/

/-- Python `str.lower()` restricted to ASCII letters (the channel and user
names the system compares are ASCII). -/
def asciiLowerChar (c : Char) : Char :=
  if 'A' ≤ c ∧ c ≤ 'Z' then Char.ofNat (c.toNat + 32) else c

def asciiLower (s : List Char) : List Char := s.map asciiLowerChar

/-- `TARGET_TWITCH_USER = "hikakin"` (line 74). -/
def TARGET_TWITCH_USER : List Char := ['h', 'i', 'k', 'a', 'k', 'i', 'n']

/-- `TARGET_TWITCH_USER_LOWER = TARGET_TWITCH_USER.lower()` (line 77). -/
def TARGET_TWITCH_USER_LOWER : List Char := asciiLower TARGET_TWITCH_USER

/-- Python `line.split(" ", 1)`: the part before the first space and the
part after it, or `none` when the line has no space. -/
def splitFirstSpace : List Char → Option (List Char × List Char)
  | [] => none
  | c :: rest =>
    if c = ' ' then some ([], rest)
    else
      match splitFirstSpace rest with
      | some (a, b) => some (c :: a, b)
      | none => none

/-- `strip_irc_tags(line)` (lines 1446-1455). -/
def strip_irc_tags (line : List Char) : List Char :=
  match line with
  | '@' :: _ =>
    (match splitFirstSpace line with
     | some (_, rest) => rest
     | none => [])
  | _ => line

/-- The literal `" PRIVMSG #"` of the PRIVMSG pattern. -/
def PRIVMSG_LITERAL : List Char := [' ', 'P', 'R', 'I', 'V', 'M', 'S', 'G', ' ', '#']

def dropLiteral (lit s : List Char) : Option (List Char) :=
  if strStartsWith lit s then some (s.drop lit.length) else none

/-- `(?P<message>.*)$` in a non-MULTILINE, non-DOTALL match: `.*` cannot
cross a newline and `$` matches at the end or just before a trailing
newline. -/
def matchDotStarToEnd (s : List Char) : Option (List Char) :=
  if (s.takeWhile (· != '\n')).length = s.length then some s
  else if (s.takeWhile (· != '\n')).length + 1 = s.length then
    some (s.takeWhile (· != '\n'))
  else none

/-- `parse_privmsg(line)` (lines 1459-1466): the fixed PRIVMSG grammar,
returning `(user, channel, message)`. -/
def parse_privmsg (line : List Char) : Option (List Char × List Char × List Char) :=
  match line with
  | ':' :: rest =>
    if (rest.takeWhile (· != '!')).isEmpty then none
    else
      match rest.dropWhile (· != '!') with
      | '!' :: rest2 =>
        if (rest2.takeWhile (· != ' ')).isEmpty then none
        else
          match dropLiteral PRIVMSG_LITERAL (rest2.dropWhile (· != ' ')) with
          | none => none
          | some rest4 =>
            if (rest4.takeWhile (· != ' ')).isEmpty then none
            else
              match rest4.dropWhile (· != ' ') with
              | ' ' :: ':' :: rest6 =>
                match matchDotStarToEnd rest6 with
                | some msg => some (rest.takeWhile (· != '!'), rest4.takeWhile (· != ' '), msg)
                | none => none
              | _ => none
      | _ => none
  | _ => none

/-- `XPoster.enqueue_text` (lines 1327-1333): the job texts handed to
`_enqueue_job` (capacity handling is the queue's concern, see `put_nowait`).
An empty text is ignored. -/
def enqueue_text (text : List Char) : List (List Char) :=
  if text.isEmpty then [] else [text]

/-- The observable effects of `_handle_irc_line`: the keep-alive reply
payload, if any, and the job texts handed to the publish queue. -/
structure IrcEffects where
  pong : Option (List Char)
  jobs : List (List Char)
  deriving Repr, DecidableEq

def PING_LITERAL : List Char := ['P', 'I', 'N', 'G', ' ']

/-- `_send_pong` payload (lines 1596-1602). -/
def send_pong_payload (line : List Char) : List Char :=
  match splitFirstSpace line with
  | some (_, rest) => rest
  | none => []

/-- `TwitchIRCListener._handle_irc_line` (lines 1564-1593). -/
def handle_irc_line (cfgChannel : List Char) (line : List Char) : IrcEffects :=
  if strStartsWith PING_LITERAL line then
    ⟨some (send_pong_payload line), []⟩
  else
    match parse_privmsg (strip_irc_tags line) with
    | none => ⟨none, []⟩
    | some (author, channel, message) =>
      if asciiLower channel ≠ cfgChannel then ⟨none, []⟩
      else if asciiLower author ≠ TARGET_TWITCH_USER_LOWER then ⟨none, []⟩
      else
        if (normalize_message_text message).isEmpty then ⟨none, []⟩
        else ⟨none, enqueue_text (build_tweet (normalize_message_text message))⟩

/-- The claim's filter: the line carries a message whose channel matches the
configured target channel case-insensitively and whose author matches the
target participant case-insensitively. -/
def lineTargetMatch (cfgChannel : List Char) (line : List Char) : Prop :=
  ∃ author channel message,
    parse_privmsg (strip_irc_tags line) = some (author, channel, message) ∧
    asciiLower channel = asciiLower cfgChannel ∧
    asciiLower author = asciiLower TARGET_TWITCH_USER

/-! ## TwitchStreamMonitor (src/main.py lines 1605-2230)

State: the optional active `StreamSession` and the durable stream history.
Sample buffers are `deque(maxlen=cap)` ring buffers.  The observable actions
of one live-branch poll iteration are modelled as a trace of events, in
program order: a viewer sample appended to the (possibly new) session, a
sample appended per fresh secondary-platform fetch result, and — on session
replacement — the history record and the summary job enqueued by
`_post_session_summary` (the chart render and summary text are external
collaborators per the spec's scope; the enqueued `enqueue_media` job always
carries non-empty text and a non-empty path, so exactly one job is handed to
the queue). -/

structure ViewerSample where
  timestamp : ℚ
  viewer_count : Int
  deriving Repr, DecidableEq

structure TwitchStreamInfo where
  stream_id : String
  started_at : ℚ
  viewer_count : Int
  title : String
  deriving Repr, DecidableEq

structure YouTubeStreamInfo where
  video_id : String
  started_at : ℚ
  viewer_count : Int
  title : String
  channel_title : String
  deriving Repr, DecidableEq

structure YouTubeChannelSession where
  channel_id : String
  video_id : String
  title : String
  channel_title : String
  started_at : ℚ
  samples : List ViewerSample
  deriving Repr, DecidableEq

structure StreamSession where
  stream_id : String
  started_at : ℚ
  title : String
  samples : List ViewerSample
  youtube_channel_ids : List String
  youtube_channels : List (String × YouTubeChannelSession)
  deriving Repr, DecidableEq

structure StreamHistoryRecord where
  stream_id : String
  started_at : ℚ
  ended_at : ℚ
  deriving Repr, DecidableEq

structure MonitorConfig where
  twitch_stream_sample_max_points : Nat
  youtube_sample_max_points : Nat
  youtube_channel_ids : List String
  deriving Repr, DecidableEq

structure MonitorState where
  session : Option StreamSession
  stream_history : List StreamHistoryRecord
  deriving Repr, DecidableEq

inductive MonitorEvent where
  | twitchSample (stream_id : String) (sample : ViewerSample)
  | youtubeSample (channel_id : String) (sample : ViewerSample)
  | historyRecorded (stream_id : String) (started_at ended_at : ℚ)
  | summaryEnqueued (stream_id : String)
  deriving Repr, DecidableEq

/-- `deque(maxlen=cap).append(x)`: append and evict from the left down to
`cap` elements. -/
def dequeAppend {α : Type} (cap : Nat) (xs : List α) (x : α) : List α :=
  (xs ++ [x]).drop ((xs ++ [x]).length - cap)

/-- `TwitchStreamMonitor._record_stream_history` (lines 1925-1953): skip when
`ended_at <= started_at`; otherwise replace any record with the same stream
id, append the new record, and prune records older than the 400-day
retention window (the code computes the cutoff from `time.time()` at this
same instant; the model uses `ended_at`).  The persisted-history write is the
first component; the emitted event records that a history record occurred. -/
def record_stream_history (history : List StreamHistoryRecord)
    (sess : StreamSession) (ended_at : ℚ) :
    List StreamHistoryRecord × List MonitorEvent :=
  if ended_at ≤ sess.started_at then (history, [])
  else
    let record : StreamHistoryRecord := ⟨sess.stream_id, sess.started_at, ended_at⟩
    let replaced : List StreamHistoryRecord :=
      history.filter (fun r => r.stream_id ≠ sess.stream_id) ++ [record]
    let cutoff : ℚ := ended_at - 400 * 24 * 60 * 60
    (replaced.filter (fun r => cutoff ≤ r.ended_at),
     [.historyRecorded sess.stream_id sess.started_at ended_at])

/-- `TwitchStreamMonitor._post_session_summary` (lines 2187-2221): record the
history first, then enqueue the image-attached summary job. -/
def post_session_summary (history : List StreamHistoryRecord)
    (sess : StreamSession) (ended_at : ℚ) :
    List StreamHistoryRecord × List MonitorEvent :=
  ((record_stream_history history sess ended_at).1,
   (record_stream_history history sess ended_at).2
     ++ [.summaryEnqueued sess.stream_id])

def newStreamSession (cfg : MonitorConfig) (info : TwitchStreamInfo) : StreamSession :=
  ⟨info.stream_id, info.started_at, info.title, [], cfg.youtube_channel_ids, []⟩

/-- In-place keyed update of the `youtube_channels` dict (insertion order
preserved, new keys appended). -/
def setAssoc {β : Type} (k : String) (v : β) :
    List (String × β) → List (String × β)
  | [] => [(k, v)]
  | (k', v') :: rest => if k' = k then (k, v) :: rest else (k', v') :: setAssoc k v rest

/-- The per-channel body of the secondary-platform loop in
`_handle_stream_live` (lines 2143-2164): create the channel session if
absent or if its video id changed, update it in place otherwise, then append
the sample. -/
def mkSample (now : ℚ) (vc : Int) : ViewerSample := ⟨now, vc⟩

def ytChannelStep (cfg : MonitorConfig) (now : ℚ)
    (existing : Option YouTubeChannelSession) (channel_id : String)
    (info : YouTubeStreamInfo) : YouTubeChannelSession :=
  let base : YouTubeChannelSession :=
    match existing with
    | some cs =>
      if cs.video_id ≠ info.video_id then
        ⟨channel_id, info.video_id, info.title, info.channel_title, info.started_at, []⟩
      else
        { cs with title := info.title, channel_title := info.channel_title,
                  started_at := info.started_at }
    | none => ⟨channel_id, info.video_id, info.title, info.channel_title,
               info.started_at, []⟩
  { base with samples :=
      dequeAppend cfg.youtube_sample_max_points base.samples (mkSample now info.viewer_count) }

def applyYoutubeInfos (cfg : MonitorConfig) (now : ℚ) :
    List (String × YouTubeChannelSession) → List (String × YouTubeStreamInfo)
      → List (String × YouTubeChannelSession) × List MonitorEvent
  | channels, [] => (channels, [])
  | channels, (cid, yi) :: rest =>
    let channels' := setAssoc cid (ytChannelStep cfg now (channels.lookup cid) cid yi)
      channels
    let r : List (String × YouTubeChannelSession) × List MonitorEvent :=
      applyYoutubeInfos cfg now channels' rest
    (r.1, .youtubeSample cid (mkSample now yi.viewer_count) :: r.2)

/-- `TwitchStreamMonitor._handle_stream_live` (lines 2101-2168): inside the
session lock, create or replace the session and append the Twitch and
secondary samples; after releasing the lock, publish the superseded session
if the stream id changed. -/
def handle_stream_live (cfg : MonitorConfig) (st : MonitorState)
    (info : TwitchStreamInfo) (now : ℚ)
    (youtube_infos : List (String × YouTubeStreamInfo)) :
    MonitorState × List MonitorEvent :=
  match st.session with
  | none =>
    let s0 := newStreamSession cfg info
    let smp := mkSample now info.viewer_count
    let s1 : StreamSession :=
      { s0 with samples := dequeAppend cfg.twitch_stream_sample_max_points s0.samples smp }
    let r := applyYoutubeInfos cfg now s1.youtube_channels youtube_infos
    ({ st with session := some { s1 with youtube_channels := r.1 } },
     .twitchSample info.stream_id smp :: r.2)
  | some cur =>
    if cur.stream_id = info.stream_id then
      let smp := mkSample now info.viewer_count
      let s1 : StreamSession :=
        { cur with samples := dequeAppend cfg.twitch_stream_sample_max_points cur.samples smp }
      let r := applyYoutubeInfos cfg now s1.youtube_channels youtube_infos
      ({ st with session := some { s1 with youtube_channels := r.1 } },
       .twitchSample info.stream_id smp :: r.2)
    else
      let s0 := newStreamSession cfg info
      let smp := mkSample now info.viewer_count
      let s1 : StreamSession :=
        { s0 with samples := dequeAppend cfg.twitch_stream_sample_max_points s0.samples smp }
      let r := applyYoutubeInfos cfg now s1.youtube_channels youtube_infos
      ({ session := some { s1 with youtube_channels := r.1 },
         stream_history := (post_session_summary st.stream_history cur now).1 },
       .twitchSample info.stream_id smp
         :: r.2 ++ (post_session_summary st.stream_history cur now).2)

def isHistoryEventFor (sid : String) : MonitorEvent → Bool
  | .historyRecorded s _ _ => s = sid
  | _ => false

def isSummaryEventFor (sid : String) : MonitorEvent → Bool
  | .summaryEnqueued s => s = sid
  | _ => false

def isTwitchSampleFor (sid : String) : MonitorEvent → Bool
  | .twitchSample s _ => s = sid
  | _ => false

/-! ## Monthly statistics (src/main.py lines 2004-2033)

`datetime.fromtimestamp(t).date()` maps a timestamp to a calendar day of the
local timezone; the model indexes days by `⌊(t + tz)/86400⌋` where `tz` is
the local UTC offset in seconds, so consecutive calendar days are
consecutive integers and the `while current_date <= last_date` loop marks
exactly an integer interval of day indices. -/

def dateOf (tz t : ℚ) : Int := ⌊(t + tz) / 86400⌋

/-- One record's contribution inside `_calculate_monthly_stats`: the seconds
added to the total and the set of day indices marked active.  Mirrors the
loop body: skip when the record lies outside the window, skip when the
overlap `[max(S,W_start), min(E,W_end))` is empty, otherwise add its
duration and mark every day from the overlap start's date through the date
of `max(overlap_start, overlap_end - 1)`. -/
def recordMonthContribution (tz start_timestamp end_timestamp : ℚ)
    (r : StreamHistoryRecord) : ℚ × Finset Int :=
  if r.ended_at ≤ start_timestamp ∨ r.started_at ≥ end_timestamp then (0, ∅)
  else
    if min r.ended_at end_timestamp ≤ max r.started_at start_timestamp then (0, ∅)
    else
      (min r.ended_at end_timestamp - max r.started_at start_timestamp,
       Finset.Icc (dateOf tz (max r.started_at start_timestamp))
         (dateOf tz (max (max r.started_at start_timestamp)
           (min r.ended_at end_timestamp - 1))))

/-- `TwitchStreamMonitor._calculate_monthly_stats` (lines 2004-2033): the
number of active days and the total live seconds over the whole history. -/
def calculate_monthly_stats (tz : ℚ) (history : List StreamHistoryRecord)
    (start_timestamp end_timestamp : ℚ) : Nat × ℚ :=
  ((history.foldl (fun acc r =>
      acc ∪ (recordMonthContribution tz start_timestamp end_timestamp r).2) ∅).card,
   history.foldl (fun acc r =>
      acc + (recordMonthContribution tz start_timestamp end_timestamp r).1) 0)

/-- The active-day range exactly as the claim words it, without the clamp:
the calendar days from the overlap's start date through the date of
`overlap_end - 1 second`. -/
def claimActiveDays (tz start_timestamp end_timestamp : ℚ)
    (r : StreamHistoryRecord) : Finset Int :=
  if min r.ended_at end_timestamp ≤ max r.started_at start_timestamp then ∅
  else
    Finset.Icc (dateOf tz (max r.started_at start_timestamp))
      (dateOf tz (min r.ended_at end_timestamp - 1))

/-- The active-day range as the amended claim words it: the end of the range
is the date of `max(overlap_start, overlap_end - 1 second)`, as the code
computes it. -/
def amendedActiveDays (tz start_timestamp end_timestamp : ℚ)
    (r : StreamHistoryRecord) : Finset Int :=
  if min r.ended_at end_timestamp ≤ max r.started_at start_timestamp then ∅
  else
    Finset.Icc (dateOf tz (max r.started_at start_timestamp))
      (dateOf tz (max (max r.started_at start_timestamp)
        (min r.ended_at end_timestamp - 1)))

/-! ## Upcoming-stream announcements (src/main.py lines 2036-2065)

`_post_youtube_upcoming_infos` walks the fetched upcoming infos in order
(dict values in insertion order), skips ids already in the durable
`_youtube_upcoming_posted_ids` set and results whose scheduled start is not
strictly in the future, enqueues one announcement per surviving info
(`build_youtube_upcoming_tweet` always produces non-empty text, so
`enqueue_text` hands exactly one job to the queue per announcement), adds
the id to the set, and rewrites the cache file once if anything was
posted. -/

structure YouTubeUpcomingInfo where
  video_id : String
  scheduled_start : ℚ
  title : String
  channel_title : String
  url : String
  deriving Repr, DecidableEq

/-- The announcement loop of `_post_youtube_upcoming_infos` (lines
2048-2061): returns the updated posted-id set and the announced video ids in
order. -/
def post_youtube_upcoming_go (posted : Finset String) (now : ℚ) :
    List YouTubeUpcomingInfo → Finset String × List String
  | [] => (posted, [])
  | i :: rest =>
    if i.video_id ∈ posted then post_youtube_upcoming_go posted now rest
    else if i.scheduled_start ≤ now then post_youtube_upcoming_go posted now rest
    else
      let r := post_youtube_upcoming_go (insert i.video_id posted) now rest
      (r.1, i.video_id :: r.2)

/-- `TwitchStreamMonitor._post_youtube_upcoming_infos` (lines 2036-2065):
the updated durable set, the announced ids, and whether the cache file was
rewritten. -/
def post_youtube_upcoming_infos (posted : Finset String)
    (upcoming_infos : List YouTubeUpcomingInfo) (now : ℚ) :
    Finset String × List String × Bool :=
  if upcoming_infos.isEmpty then (posted, [], false)
  else
    ((post_youtube_upcoming_go posted now upcoming_infos).1,
     (post_youtube_upcoming_go posted now upcoming_infos).2,
     !(post_youtube_upcoming_go posted now upcoming_infos).2.isEmpty)

/-- A sequence of poll iterations, each carrying its fetched upcoming infos
and its `now`: the durable set threads through, and the announcements
concatenate. -/
def run_upcoming_polls (posted : Finset String) :
    List (List YouTubeUpcomingInfo × ℚ) → Finset String × List String
  | [] => (posted, [])
  | (infos, now) :: rest =>
    let r := post_youtube_upcoming_infos posted infos now
    let r2 := run_upcoming_polls r.1 rest
    (r2.1, r.2.1 ++ r2.2)

/-! ### Basic lemmas about the string primitives -/

theorem strStartsWith_self (l : List Char) : strStartsWith l l = true := by
  induction l with
  | nil => rfl
  | cons a as ih => simp [strStartsWith, ih]

theorem strStartsWith_length {n h : List Char} (hs : strStartsWith n h = true) :
    n.length ≤ h.length := by
  induction n generalizing h with
  | nil => exact Nat.zero_le _
  | cons a as ih =>
    cases h with
    | nil => simp [strStartsWith] at hs
    | cons b bs =>
      simp only [strStartsWith, Bool.and_eq_true] at hs
      simpa using Nat.succ_le_succ (ih hs.2)

theorem pyContains_length {n h : List Char} (hc : pyContains n h = true) :
    n.length ≤ h.length := by
  induction h with
  | nil =>
    simp only [pyContains, List.isEmpty_iff] at hc
    simp [hc]
  | cons b bs ih =>
    simp only [pyContains, Bool.or_eq_true] at hc
    rcases hc with hs | hc
    · exact strStartsWith_length hs
    · exact le_trans (ih hc) (by simp)

theorem pyContains_cons_of {n h : List Char} (c : Char) (hc : pyContains n h = true) :
    pyContains n (c :: h) = true := by
  simp [pyContains, hc]

theorem pyContains_append_left {n h : List Char} (x : List Char)
    (hc : pyContains n h = true) : pyContains n (x ++ h) = true := by
  induction x with
  | nil => simpa using hc
  | cons a as ih => simpa using pyContains_cons_of a ih

theorem pyContains_self (l : List Char) : pyContains l l = true := by
  cases l with
  | nil => rfl
  | cons a as => simp [pyContains, strStartsWith_self]

theorem pyContains_nil (h : List Char) : pyContains [] h = true := by
  cases h with
  | nil => rfl
  | cons b bs => simp [pyContains, strStartsWith]

theorem pyContains_suffix_hashtag (x htag : List Char) :
    pyContains htag (x ++ '\n' :: '\n' :: htag) = true := by
  apply pyContains_append_left
  exact pyContains_cons_of _ (pyContains_cons_of _ (pyContains_self htag))

theorem pySliceTo_length (s : List Char) (n : Int) :
    (pySliceTo s n).length =
      if n < 0 then s.length - min s.length n.natAbs else min n.toNat s.length := by
  unfold pySliceTo
  split <;> simp [List.length_take]

theorem truncate_for_x_length_le (t : List Char) (m : Int) (hm : 0 ≤ m) :
    ((truncate_for_x t m).length : Int) ≤ m := by
  unfold truncate_for_x
  split
  · assumption
  · split
    · rw [pySliceTo_length]
      split
      · omega
      · have h1 : (m.toNat : Int) = m := Int.toNat_of_nonneg hm
        have := Nat.min_le_left m.toNat t.length
        omega
    · rename_i h1 h2
      rw [List.length_append, pySliceTo_length]
      have hneg : ¬ (m - 3 < 0) := by omega
      rw [if_neg hneg]
      have h3 : ((m - 3).toNat : Int) = m - 3 := Int.toNat_of_nonneg (by omega)
      have := Nat.min_le_left (m - 3).toNat t.length
      simp only [List.length_cons, List.length_nil]
      omega

theorem truncate_for_x_shorter {t : List Char} {m : Int} (ht : 0 < t.length)
    (h : ¬ (t.length : Int) ≤ m) : (truncate_for_x t m).length < t.length := by
  unfold truncate_for_x
  rw [if_neg h]
  split
  · rw [pySliceTo_length]
    split
    · rename_i hneg
      have h1 : 0 < m.natAbs := by omega
      have : 0 < min t.length m.natAbs := lt_min ht h1
      omega
    · rename_i hpos
      have h2 : m.toNat < t.length := by omega
      have h3 : min m.toNat t.length = m.toNat := Nat.min_eq_left (le_of_lt h2)
      rw [h3]
      exact h2
  · rename_i h3
    rw [List.length_append, pySliceTo_length]
    have hneg : ¬ (m - 3 < 0) := by omega
    rw [if_neg hneg]
    have h4 : ((m - 3).toNat : Int) = m - 3 := Int.toNat_of_nonneg (by omega)
    have h5 : (m - 3).toNat < t.length - 3 := by omega
    have := Nat.min_le_left (m - 3).toNat t.length
    simp only [List.length_cons, List.length_nil]
    omega

/-! ## Claims C9 and C10: length bounds and idempotence of the text transforms -/

/-- C9 (counterexample): the claim asserts that for every text, hashtag and
max_length, `append_hashtag` returns a string of length at most max_length.
It is false: when the hashtag already occurs in the text, `append_hashtag`
returns the text unchanged, even if the text is longer than max_length.
Concretely, a 281-character text starting with the 2-character hashtag is
returned as-is by `append_hashtag` at limit 280. -/
theorem C9_length_counterexample :
    append_hashtag ('#' :: 'h' :: List.replicate 279 'a') ['#', 'h'] 280
      = '#' :: 'h' :: List.replicate 279 'a' ∧
    ¬ (((append_hashtag ('#' :: 'h' :: List.replicate 279 'a') ['#', 'h'] 280).length : Int)
        ≤ 280) := by
  have hcont : pyContains ['#', 'h'] ('#' :: 'h' :: List.replicate 279 'a') = true := rfl
  have heq : append_hashtag ('#' :: 'h' :: List.replicate 279 'a') ['#', 'h'] 280
      = '#' :: 'h' :: List.replicate 279 'a' := by
    unfold append_hashtag
    rw [if_pos hcont]
  refine ⟨heq, ?_⟩
  rw [heq]
  have hlen : ('#' :: 'h' :: List.replicate 279 'a').length = 281 := by
    rw [List.length_cons, List.length_cons, List.length_replicate]
  rw [hlen]
  norm_num

/-- Length bound for `append_hashtag` under the precondition that the input
text already respects the limit (which every caller in src/main.py
establishes by building the job text with `truncate_for_x` at 280). -/
theorem append_hashtag_length_le (text hashtag : List Char) (m : Int)
    (h : (text.length : Int) ≤ m) :
    ((append_hashtag text hashtag m).length : Int) ≤ m := by
  have hm : 0 ≤ m := le_trans (by positivity) h
  unfold append_hashtag
  split
  · exact h
  · split
    · rename_i h2
      simp only [List.length_append, List.length_cons]
      push_cast
      simp only [List.length_cons] at h2
      push_cast at h2
      omega
    · split
      · exact truncate_for_x_length_le hashtag m hm
      · rename_i h2 h3
        simp only [List.length_cons] at h3 ⊢
        have havail : (0:Int) ≤ m - ((hashtag.length + 1 + 1 : Nat) : Int) := by
          push_cast at h3 ⊢
          omega
        have := truncate_for_x_length_le text (m - ((hashtag.length + 1 + 1 : Nat) : Int)) havail
        simp only [List.length_append, List.length_cons]
        push_cast at this ⊢
        omega

/-- C9 (amended): `truncate_for_x` respects any non-negative limit;
`append_hashtag` respects the limit whenever its input text does; and the
final payload built by `XPoster._post_to_x` (reply mentions, then
`append_hashtag` with the 280 limit as the last transform) never exceeds 280
characters, given a job text of at most 280 characters (which every producer
in src/main.py guarantees via `truncate_for_x`). -/
theorem C9_length_amended :
    (∀ (text : List Char) (m : Int), 0 ≤ m → ((truncate_for_x text m).length : Int) ≤ m) ∧
    (∀ (text hashtag : List Char) (m : Int), (text.length : Int) ≤ m →
        ((append_hashtag text hashtag m).length : Int) ≤ m) ∧
    (∀ (jobText : List Char) (mode : Bool) (mentions : List (List Char)),
        (jobText.length : Int) ≤ 280 →
        ((post_to_x_text jobText mode mentions).length : Int) ≤ 280) := by
  refine ⟨truncate_for_x_length_le, append_hashtag_length_le, ?_⟩
  intro jobText mode mentions hj
  unfold post_to_x_text
  have hin : (((if mode then apply_reply_mentions jobText mentions else jobText).length : Int))
      ≤ 280 := by
    split
    · unfold apply_reply_mentions
      split
      · exact hj
      · exact truncate_for_x_length_le _ MAX_TWEET_LENGTH (by norm_num [MAX_TWEET_LENGTH])
    · exact hj
  exact append_hashtag_length_le _ POST_HASHTAG MAX_TWEET_LENGTH hin

/-- Witness for C9 (amended) at concrete inputs. -/
theorem C9_length_amended_witness :
    ((truncate_for_x ['a', 'b', 'c', 'd'] 3).length : Int) ≤ 3 ∧
    ((append_hashtag ['a'] ['#', 'h'] 10).length : Int) ≤ 10 ∧
    ((post_to_x_text ['x'] false []).length : Int) ≤ 280 :=
  ⟨C9_length_amended.1 ['a', 'b', 'c', 'd'] 3 (by norm_num),
   C9_length_amended.2.1 ['a'] ['#', 'h'] 10 (by simp),
   C9_length_amended.2.2 ['x'] false [] (by simp)⟩

/-- Branch characterization: the hashtag is already contained. -/
theorem append_hashtag_of_contains {t h : List Char} (m : Int)
    (hc : pyContains h t = true) : append_hashtag t h m = t := by
  unfold append_hashtag
  rw [if_pos hc]

/-- Branch characterization: not contained and the suffix fits. -/
theorem append_hashtag_of_fits {t h : List Char} {m : Int}
    (hc : pyContains h t = false)
    (h2 : (t.length : Int) + (('\n' :: '\n' :: h).length : Int) ≤ m) :
    append_hashtag t h m = t ++ ('\n' :: '\n' :: h) := by
  have hcne : ¬ (pyContains h t = true) := by rw [hc]; exact Bool.false_ne_true
  unfold append_hashtag
  rw [if_neg hcne, if_pos h2]

/-- Branch characterization: nothing fits, the hashtag itself is truncated. -/
theorem append_hashtag_of_degenerate {t h : List Char} {m : Int}
    (hc : pyContains h t = false)
    (h2 : ¬ ((t.length : Int) + (('\n' :: '\n' :: h).length : Int) ≤ m))
    (h3 : m - (('\n' :: '\n' :: h).length : Int) ≤ 0) :
    append_hashtag t h m = truncate_for_x h m := by
  have hcne : ¬ (pyContains h t = true) := by rw [hc]; exact Bool.false_ne_true
  unfold append_hashtag
  rw [if_neg hcne, if_neg h2, if_pos h3]

/-- Branch characterization: the text is trimmed to make the suffix fit. -/
theorem append_hashtag_of_trim {t h : List Char} {m : Int}
    (hc : pyContains h t = false)
    (h2 : ¬ ((t.length : Int) + (('\n' :: '\n' :: h).length : Int) ≤ m))
    (h3 : ¬ (m - (('\n' :: '\n' :: h).length : Int) ≤ 0)) :
    append_hashtag t h m
      = truncate_for_x t (m - (('\n' :: '\n' :: h).length : Int))
        ++ ('\n' :: '\n' :: h) := by
  have hcne : ¬ (pyContains h t = true) := by rw [hc]; exact Bool.false_ne_true
  unfold append_hashtag
  rw [if_neg hcne, if_neg h2, if_neg h3]

/-- C10: `append_hashtag` is idempotent for every text, hashtag and
max_length, including the degenerate branches in which the hashtag itself is
truncated. -/
theorem C10_append_hashtag_idempotent (t h : List Char) (m : Int) :
    append_hashtag (append_hashtag t h m) h m = append_hashtag t h m := by
  by_cases hc : pyContains h t = true
  · rw [append_hashtag_of_contains m hc, append_hashtag_of_contains m hc]
  · have hcf : pyContains h t = false := by simpa using hc
    have hne : h ≠ [] := by
      intro he
      rw [he, pyContains_nil t] at hcf
      exact Bool.noConfusion hcf
    by_cases h2 : (t.length : Int) + (('\n' :: '\n' :: h).length : Int) ≤ m
    · rw [append_hashtag_of_fits hcf h2]
      exact append_hashtag_of_contains m (pyContains_suffix_hashtag t h)
    · by_cases h3 : m - (('\n' :: '\n' :: h).length : Int) ≤ 0
      · rw [append_hashtag_of_degenerate hcf h2 h3]
        by_cases h4 : (h.length : Int) ≤ m
        · have htr : truncate_for_x h m = h := by
            unfold truncate_for_x
            rw [if_pos h4]
          rw [htr]
          exact append_hashtag_of_contains m (pyContains_self h)
        · have hpos : 0 < h.length := List.length_pos.mpr hne
          have hlen : (truncate_for_x h m).length < h.length :=
            truncate_for_x_shorter hpos h4
          have hnc : pyContains h (truncate_for_x h m) = false := by
            cases hcc : pyContains h (truncate_for_x h m) with
            | false => rfl
            | true => exact absurd (pyContains_length hcc) (by omega)
          have hb2 : ¬ (((truncate_for_x h m).length : Int)
              + (('\n' :: '\n' :: h).length : Int) ≤ m) := by
            simp only [List.length_cons] at h3 ⊢
            push_cast at h3 ⊢
            omega
          rw [append_hashtag_of_degenerate hnc hb2 h3]
      · rw [append_hashtag_of_trim hcf h2 h3]
        exact append_hashtag_of_contains m
          (pyContains_suffix_hashtag (truncate_for_x t (m - (('\n' :: '\n' :: h).length : Int))) h)

theorem get_access_token_refresh_refreshed {st : TokenState} {now : ℚ}
    {resp : TokenResponse} {tok : String} {st' : TokenState} {r : Bool}
    (h : get_access_token_refresh st now resp = .ok (tok, st', r)) : r = true := by
  unfold get_access_token_refresh at h
  split at h
  · exact Except.noConfusion h
  · split at h
    · split at h
      · exact Except.noConfusion h
      · simp only [Except.ok.injEq, Prod.mk.injEq] at h
        exact h.2.2.symm
    · exact Except.noConfusion h

theorem get_access_token_some (st : TokenState) (now : ℚ) (resp : TokenResponse)
    (tok0 : String) (hA : st.accessToken = some tok0) :
    get_access_token st now resp =
      if !(tok0 == "") && is_token_valid st now then .ok (tok0, st, false)
      else get_access_token_refresh st now resp := by
  unfold get_access_token
  rw [hA]

theorem get_access_token_none (st : TokenState) (now : ℚ) (resp : TokenResponse)
    (hA : st.accessToken = none) :
    get_access_token st now resp = get_access_token_refresh st now resp := by
  unfold get_access_token
  rw [hA]

theorem refresh_token_locked_ok {st : TokenState} {resp : TokenResponse} {now : ℚ}
    {tokStr : String} (hTok : resp.access_token = some tokStr) (hne : tokStr ≠ "") :
    refresh_token_locked st resp now
      = .ok ⟨some tokStr, now + (effectiveExpiresIn resp : ℚ), rotatedRefresh st resp⟩ := by
  simp [refresh_token_locked, hTok, hne]

theorem get_access_token_refresh_ok {st : TokenState} {now : ℚ} {resp : TokenResponse}
    {tokStr : String} (hTok : resp.access_token = some tokStr) (hne : tokStr ≠ "") :
    get_access_token_refresh st now resp
      = .ok (tokStr,
          ⟨some tokStr, now + (effectiveExpiresIn resp : ℚ), rotatedRefresh st resp⟩,
          true) := by
  have hb : (tokStr == "") = false := beq_eq_false_iff_ne.mpr hne
  simp [get_access_token_refresh, refresh_token_locked_ok hTok hne, hb]

theorem get_access_token_stable {st : TokenState} {now : ℚ} {resp : TokenResponse}
    {tokStr : String} (hA : st.accessToken = some tokStr) (hne : tokStr ≠ "")
    (hv : is_token_valid st now = true) :
    get_access_token st now resp = .ok (tokStr, st, false) := by
  rw [get_access_token_some st now resp tokStr hA]
  have hb : (tokStr == "") = false := beq_eq_false_iff_ne.mpr hne
  simp [hb, hv]

theorem process_concurrent_callers_stable {st : TokenState} {now : ℚ}
    {resp : TokenResponse} {tokStr : String} (n : Nat)
    (hA : st.accessToken = some tokStr) (hne : tokStr ≠ "")
    (hv : is_token_valid st now = true) :
    process_concurrent_callers st now resp n = .ok (st, 0) := by
  induction n with
  | zero => rfl
  | succ k ih =>
    simp [process_concurrent_callers, get_access_token_stable hA hne hv, ih]

/-- C4: `get_access_token` never returns a token whose recorded expiry is
within the 60-second margin of the current monotonic time without issuing a
refresh: a return without refresh certifies the margin and leaves the state
untouched, and an absent, empty, or inside-margin cached token forces the
returned `refreshed` flag to be true. -/
theorem C4_token_margin (st : TokenState) (now : ℚ) (resp : TokenResponse)
    (tok : String) (st' : TokenState) (refreshed : Bool)
    (h : get_access_token st now resp = .ok (tok, st', refreshed)) :
    (refreshed = false →
      now < st.expiresAt - TOKEN_REFRESH_MARGIN_SECONDS ∧ st' = st
        ∧ st.accessToken = some tok) ∧
    ((st.accessToken = none ∨ st.accessToken = some "" ∨
        ¬ (now < st.expiresAt - TOKEN_REFRESH_MARGIN_SECONDS)) → refreshed = true) := by
  cases hA : st.accessToken with
  | none =>
    rw [get_access_token_none st now resp hA] at h
    have hr : refreshed = true := get_access_token_refresh_refreshed h
    exact ⟨fun hf => absurd hr (by rw [hf]; exact Bool.noConfusion),
           fun _ => hr⟩
  | some tok0 =>
    rw [get_access_token_some st now resp tok0 hA] at h
    by_cases hv : (!(tok0 == "") && is_token_valid st now) = true
    · rw [if_pos hv] at h
      simp only [Except.ok.injEq, Prod.mk.injEq] at h
      obtain ⟨h1, h2, h3⟩ := h
      have hval : is_token_valid st now = true := ((Bool.and_eq_true _ _).mp hv).2
      have hne : (tok0 == "") = false := by
        have := ((Bool.and_eq_true _ _).mp hv).1
        simpa using this
      have hlt : now < st.expiresAt - TOKEN_REFRESH_MARGIN_SECONDS := by
        unfold is_token_valid at hval
        exact of_decide_eq_true hval
      constructor
      · intro _
        exact ⟨hlt, h2.symm, by rw [h1]⟩
      · intro hd
        rcases hd with hd | hd | hd
        · exact Option.noConfusion hd
        · have he : tok0 = "" := Option.some.inj hd
          rw [he] at hne
          simp at hne
        · exact absurd hlt hd
    · rw [if_neg hv] at h
      have hr : refreshed = true := get_access_token_refresh_refreshed h
      exact ⟨fun hf => absurd hr (by rw [hf]; exact Bool.noConfusion),
             fun _ => hr⟩

/-- Witness for C4 at a concrete cached, still-valid token. -/
theorem C4_token_margin_witness :
    (0 : ℚ) < (⟨some ("abc"), 1000, ("r")⟩ : TokenState).expiresAt
        - TOKEN_REFRESH_MARGIN_SECONDS ∧
    (⟨some ("abc"), 1000, ("r")⟩ : TokenState) = ⟨some ("abc"), 1000, ("r")⟩ ∧
    (⟨some ("abc"), 1000, ("r")⟩ : TokenState).accessToken = some ("abc") := by
  have hv : is_token_valid ⟨some ("abc"), 1000, ("r")⟩ 0 = true := by
    unfold is_token_valid
    apply decide_eq_true
    show (0 : ℚ) < (1000 : ℚ) - TOKEN_REFRESH_MARGIN_SECONDS
    norm_num [TOKEN_REFRESH_MARGIN_SECONDS]
  exact (C4_token_margin ⟨some ("abc"), 1000, ("r")⟩ 0 ⟨some ("t2"), none, none⟩
    ("abc") ⟨some ("abc"), 1000, ("r")⟩ false
    (get_access_token_stable rfl (by decide) hv)).1 rfl

/-- C5 (counterexample): two concurrent callers arriving at instant 0 with no
cached token, against a server that grants a 30-second token lifetime, issue
two outbound refresh requests, not one: the second caller acquires the lock,
finds the freshly stored token already inside the 60-second margin, and
refreshes again. -/
theorem C5_single_refresh_counterexample :
    process_concurrent_callers ⟨none, 0, ("r")⟩ 0 ⟨some ("tok"), none, some 30⟩ 2
      = .ok (⟨some ("tok"), 30, ("r")⟩, 2) ∧ (2 : Nat) ≠ 1 := by
  have hx : (0 : ℚ) + ((effectiveExpiresIn ⟨some ("tok"), none, some 30⟩ : Int) : ℚ)
      = 30 := by
    norm_num [effectiveExpiresIn]
  have h1 : get_access_token ⟨none, 0, ("r")⟩ 0 ⟨some ("tok"), none, some 30⟩
      = .ok (("tok"), ⟨some ("tok"), 30, ("r")⟩, true) := by
    rw [get_access_token_none _ _ _ rfl, get_access_token_refresh_ok rfl (by decide)]
    rw [show rotatedRefresh (⟨none, 0, ("r")⟩ : TokenState)
        ⟨some ("tok"), none, some 30⟩ = ("r") from rfl, hx]
  have hv : is_token_valid ⟨some ("tok"), 30, ("r")⟩ 0 = false := by
    unfold is_token_valid
    apply decide_eq_false
    norm_num [TOKEN_REFRESH_MARGIN_SECONDS]
  have h2 : get_access_token ⟨some ("tok"), 30, ("r")⟩ 0 ⟨some ("tok"), none, some 30⟩
      = .ok (("tok"), ⟨some ("tok"), 30, ("r")⟩, true) := by
    rw [get_access_token_some _ _ _ ("tok") rfl]
    rw [hv]
    simp only [Bool.and_false, Bool.false_eq_true, if_false]
    rw [get_access_token_refresh_ok rfl (by decide)]
    rw [show rotatedRefresh (⟨some ("tok"), 30, ("r")⟩ : TokenState)
        ⟨some ("tok"), none, some 30⟩ = ("r") from rfl, hx]
  constructor
  · simp [process_concurrent_callers, h1, h2]
  · decide

/-- C5 (amended): when the granted token lifetime exceeds the 60-second
safety margin, any number of concurrent callers arriving at the same instant
trigger exactly one outbound refresh request: the first caller refreshes and
every later caller returns the stored token under the lock.  (When the
granted lifetime is at most 60 seconds, each serialized caller refreshes
again, as the counterexample shows.) -/
theorem C5_single_refresh_amended (st : TokenState) (t : ℚ) (resp : TokenResponse)
    (n : Nat) (tokStr : String)
    (hInvalid : tokenTruthy st = false ∨ is_token_valid st t = false)
    (hTok : resp.access_token = some tokStr) (hne : tokStr ≠ "")
    (hLife : TOKEN_REFRESH_MARGIN_SECONDS < (effectiveExpiresIn resp : ℚ)) :
    process_concurrent_callers st t resp (n + 1)
      = .ok (⟨some tokStr, t + (effectiveExpiresIn resp : ℚ), rotatedRefresh st resp⟩,
          1) := by
  have hfirst : get_access_token st t resp
      = .ok (tokStr,
          ⟨some tokStr, t + (effectiveExpiresIn resp : ℚ), rotatedRefresh st resp⟩,
          true) := by
    cases hA : st.accessToken with
    | none =>
      rw [get_access_token_none st t resp hA]
      exact get_access_token_refresh_ok hTok hne
    | some tok0 =>
      rw [get_access_token_some st t resp tok0 hA]
      have hcond : (!(tok0 == "") && is_token_valid st t) = false := by
        rcases hInvalid with hT | hV
        · have hT0 : (!(tok0 == "")) = false := by
            simpa [tokenTruthy, hA] using hT
          simp [hT0]
        · simp [hV]
      simp only [hcond, Bool.false_eq_true, if_false]
      exact get_access_token_refresh_ok hTok hne
  have hvNew : is_token_valid
      (⟨some tokStr, t + (effectiveExpiresIn resp : ℚ), rotatedRefresh st resp⟩ :
        TokenState) t = true := by
    unfold is_token_valid
    apply decide_eq_true
    show t < t + (effectiveExpiresIn resp : ℚ) - TOKEN_REFRESH_MARGIN_SECONDS
    linarith [hLife]
  have hstable := @process_concurrent_callers_stable
      ⟨some tokStr, t + (effectiveExpiresIn resp : ℚ), rotatedRefresh st resp⟩
      t resp tokStr n rfl hne hvNew
  simp [process_concurrent_callers, hfirst, hstable]

/-- Witness for C5 (amended): two callers, no cached token, 3600-second
lifetime granted: exactly one refresh. -/
theorem C5_single_refresh_amended_witness :
    process_concurrent_callers ⟨none, 0, ("r")⟩ 0 ⟨some ("tok"), none, some 3600⟩ 2
      = .ok (⟨some ("tok"), 3600, ("r")⟩, 1) := by
  have h := C5_single_refresh_amended ⟨none, 0, ("r")⟩ 0 ⟨some ("tok"), none, some 3600⟩ 1
    ("tok") (Or.inl rfl) rfl (by decide) (by norm_num [effectiveExpiresIn,
      TOKEN_REFRESH_MARGIN_SECONDS])
  rw [show (0 : ℚ)
      + ((effectiveExpiresIn ⟨some ("tok"), none, some 3600⟩ : Int) : ℚ) = 3600 by
        norm_num [effectiveExpiresIn]] at h
  rw [show rotatedRefresh (⟨none, 0, ("r")⟩ : TokenState)
      ⟨some ("tok"), none, some 3600⟩ = ("r") from rfl] at h
  exact h

theorem post_to_x_exec_ge (interval last : ℚ) (a : PostAttempt) :
    last + interval ≤ (post_to_x_exec interval last a).1 := by
  unfold post_to_x_exec wait_for_interval
  dsimp only
  split
  · linarith
  · rename_i hc
    push_neg at hc
    linarith

/-- C2 (counterexample): with interval 10 and `_last_post_time` 0, a failed
publish executing at instant 100 does not update `_last_post_time`, so the
next publish executes at instant 101 — the two publishes execute only 1
second apart, less than the interval. -/
theorem C2_interval_counterexample :
    run_poster 10 0 [⟨100, false, 0⟩, ⟨101, true, 0⟩] = [100, 101] ∧
    ¬ ((100 : ℚ) + 10 ≤ 101) := by
  have e1 : post_to_x_exec 10 0 ⟨100, false, 0⟩ = (100, 0) := by
    simp only [post_to_x_exec, wait_for_interval]
    norm_num
  have e2 : post_to_x_exec 10 0 ⟨101, true, 0⟩ = (101, 101) := by
    simp only [post_to_x_exec, wait_for_interval]
    norm_num
  constructor
  · simp [run_poster, e1, e2]
  · norm_num

/-- C2 (amended): before each publish the worker waits until at least
`interval` seconds have elapsed since the previous *successful* publish:
every execution instant is at least `_last_post_time + interval`, and two
consecutive publishes whose first attempt succeeded execute at least
`interval` apart.  After a failed publish the next one may execute sooner, as
the counterexample shows. -/
theorem C2_interval_amended (interval last : ℚ) (atts : List PostAttempt) :
    (∀ (l : ℚ) (a : PostAttempt), l + interval ≤ (post_to_x_exec interval l a).1) ∧
    (∀ (i : Nat) (a : PostAttempt) (t₁ t₂ : ℚ),
      atts[i]? = some a → a.success = true → 0 ≤ a.dur →
      (run_poster interval last atts)[i]? = some t₁ →
      (run_poster interval last atts)[i + 1]? = some t₂ →
      t₁ + interval ≤ t₂) := by
  refine ⟨post_to_x_exec_ge interval, ?_⟩
  induction atts generalizing last with
  | nil =>
    intro i a t₁ t₂ ha
    simp at ha
  | cons a rest ih =>
    intro i b t₁ t₂ hb hsucc hdur ht₁ ht₂
    cases i with
    | zero =>
      simp only [List.getElem?_cons_zero, Option.some.injEq] at hb
      subst hb
      simp only [run_poster, List.getElem?_cons_zero, Option.some.injEq] at ht₁
      subst ht₁
      cases rest with
      | nil =>
        simp [run_poster] at ht₂
      | cons c rest2 =>
        simp only [run_poster, List.getElem?_cons_succ, List.getElem?_cons_zero,
          Option.some.injEq] at ht₂
        subst ht₂
        have hge := post_to_x_exec_ge interval (post_to_x_exec interval last a).2 c
        have hlast : (post_to_x_exec interval last a).2
            = (post_to_x_exec interval last a).1 + a.dur := by
          simp [post_to_x_exec, hsucc]
        rw [hlast] at hge ⊢
        linarith
    | succ k =>
      simp only [List.getElem?_cons_succ] at hb
      simp only [run_poster, List.getElem?_cons_succ] at ht₁ ht₂
      exact ih (post_to_x_exec interval last a).2 k b t₁ t₂ hb hsucc hdur ht₁ ht₂

/-- Witness for C2 (amended): two back-to-back successful publishes with
interval 10 execute at least 10 apart (instants 10 and 20). -/
theorem C2_interval_amended_witness :
    ((0 : ℚ) + 10 ≤ (post_to_x_exec 10 0 ⟨0, true, 0⟩).1) ∧
    ((10 : ℚ) + 10 ≤ 20) := by
  have ew1 : post_to_x_exec 10 0 ⟨0, true, 0⟩ = (10, 10) := by
    simp only [post_to_x_exec, wait_for_interval]
    norm_num
  have ew2 : post_to_x_exec 10 10 ⟨0, true, 0⟩ = (20, 20) := by
    simp only [post_to_x_exec, wait_for_interval]
    norm_num
  have hrun : run_poster 10 0 [⟨0, true, 0⟩, ⟨0, true, 0⟩] = [10, 20] := by
    simp [run_poster, ew1, ew2]
  exact ⟨(C2_interval_amended 10 0 [⟨0, true, 0⟩, ⟨0, true, 0⟩]).1 0 ⟨0, true, 0⟩,
    (C2_interval_amended 10 0 [⟨0, true, 0⟩, ⟨0, true, 0⟩]).2 0 ⟨0, true, 0⟩ 10 20
      rfl rfl (le_refl 0) (by rw [hrun]; simp) (by rw [hrun]; simp)⟩

/-- C7: a job is dropped at enqueue time only when the queue is at capacity,
a job offered to a queue below capacity is appended (accepted, producer never
blocked), and in every serialized run the worker drains accepted jobs
strictly in FIFO order: the processed sequence followed by the remaining
queue equals the initial queue followed by the accepted jobs, in order. -/
theorem C7_queue_fifo :
    (∀ (α : Type) (cap : Nat) (q : List α) (j : α), q.length ≤ cap →
      ((put_nowait cap q j).2 = false → q.length = cap) ∧
      (q.length < cap → put_nowait cap q j = (q ++ [j], true))) ∧
    (∀ (α : Type) (cap : Nat) (ops : List (QueueOp α)) (q0 : List α),
      (run_queue cap ops q0).processed ++ (run_queue cap ops q0).final
        = q0 ++ (run_queue cap ops q0).accepted) := by
  constructor
  · intro α cap q j hle
    constructor
    · intro hdrop
      unfold put_nowait at hdrop
      split at hdrop
      · omega
      · simp at hdrop
    · intro hlt
      unfold put_nowait
      rw [if_neg (by omega)]
  · intro α cap ops
    induction ops with
    | nil => intro q0; simp [run_queue]
    | cons op rest ih =>
      intro q0
      cases op with
      | enq j =>
        by_cases hc : cap ≤ q0.length
        · have hput : (put_nowait cap q0 j).2 = false := by
            unfold put_nowait
            rw [if_pos hc]
          simp [run_queue, hput, ih q0]
        · have hput : put_nowait cap q0 j = (q0 ++ [j], true) := by
            unfold put_nowait
            rw [if_neg hc]
          simp [run_queue, hput, ih (q0 ++ [j])]
      | deq =>
        cases q0 with
        | nil => simpa [run_queue] using ih []
        | cons j q' =>
          simp only [run_queue]
          have := ih q'
          simp [this]

/-- Witness for C7: a below-capacity enqueue is accepted verbatim, and a
concrete run (enqueue then dequeue at capacity 1) satisfies the FIFO
conservation equation. -/
theorem C7_queue_fifo_witness :
    put_nowait 1 ([] : List (List Char)) ['a'] = ([['a']], true) ∧
    (run_queue 1 [QueueOp.enq ['a'], QueueOp.deq] ([] : List (List Char))).processed
        ++ (run_queue 1 [QueueOp.enq ['a'], QueueOp.deq] ([] : List (List Char))).final
      = [] ++ (run_queue 1 [QueueOp.enq ['a'], QueueOp.deq]
          ([] : List (List Char))).accepted :=
  ⟨(C7_queue_fifo.1 (List Char) 1 [] ['a'] (by simp)).2 (by simp),
   C7_queue_fifo.2 (List Char) 1 [QueueOp.enq ['a'], QueueOp.deq] []⟩

theorem parse_privmsg_ping {line : List Char}
    (hp : strStartsWith PING_LITERAL line = true) :
    parse_privmsg (strip_irc_tags line) = none := by
  cases line with
  | nil => simp [strStartsWith, PING_LITERAL] at hp
  | cons c rest =>
    have hc : 'P' = c := by
      simpa [strStartsWith, PING_LITERAL, Bool.and_eq_true] using
        (by
          simp only [PING_LITERAL, strStartsWith, Bool.and_eq_true,
            decide_eq_true_eq] at hp
          exact hp.1)
    subst hc
    rfl

theorem build_tweet_ne_nil (m : List Char) : build_tweet m ≠ [] := by
  unfold build_tweet truncate_for_x
  split
  · simp [POST_HEADER]
  · split
    · rename_i h1 h2
      norm_num [MAX_TWEET_LENGTH] at h2
    · simp

/-- C6: a chat line that does not carry a message matching the channel and
author filter (case-insensitively) enqueues no job; a matching line whose
whitespace-normalized body is non-empty enqueues exactly one job whose text
is the formatted (`build_tweet`) version of the normalized body.  The
hypothesis records that the configured channel is stored lowercased (done by
`normalize_channel_name` inside `load_settings`). -/
theorem C6_chat_filter (cfgChannel line : List Char)
    (hcfg : asciiLower cfgChannel = cfgChannel) :
    (¬ lineTargetMatch cfgChannel line → (handle_irc_line cfgChannel line).jobs = []) ∧
    (∀ author channel message,
      parse_privmsg (strip_irc_tags line) = some (author, channel, message) →
      asciiLower channel = asciiLower cfgChannel →
      asciiLower author = asciiLower TARGET_TWITCH_USER →
      normalize_message_text message ≠ [] →
      (handle_irc_line cfgChannel line).jobs
        = [build_tweet (normalize_message_text message)]) := by
  by_cases hping : strStartsWith PING_LITERAL line = true
  · constructor
    · intro _
      simp [handle_irc_line, hping]
    · intro author channel message hp
      rw [parse_privmsg_ping hping] at hp
      exact absurd hp (by simp)
  · have hpf : strStartsWith PING_LITERAL line = false := by simpa using hping
    constructor
    · intro hnm
      unfold handle_irc_line
      rw [hpf]
      simp only [Bool.false_eq_true, if_false]
      cases hparse : parse_privmsg (strip_irc_tags line) with
      | none => rfl
      | some trip =>
        obtain ⟨author, channel, message⟩ := trip
        by_cases hch : asciiLower channel = cfgChannel
        · by_cases hau : asciiLower author = TARGET_TWITCH_USER_LOWER
          · exact absurd ⟨author, channel, message, hparse, by rw [hch, hcfg],
              hau⟩ hnm
          · simp [hch, hau]
        · simp [hch]
    · intro author channel message hparse hch hau hne
      unfold handle_irc_line
      rw [hpf]
      simp only [Bool.false_eq_true, if_false]
      rw [hparse]
      have hch' : asciiLower channel = cfgChannel := by rw [hch, hcfg]
      have hau' : asciiLower author = TARGET_TWITCH_USER_LOWER := hau
      have hne' : (normalize_message_text message).isEmpty = false := by
        simpa using hne
      simp only [hch', hau', ne_eq, not_true_eq_false, if_false, hne',
        Bool.false_eq_true]
      simp [enqueue_text, build_tweet_ne_nil (normalize_message_text message)]

/-- Witness for C6: a concrete matching PRIVMSG line for channel `test` and
user `hikakin` with body `hello` enqueues exactly the formatted tweet. -/
theorem C6_chat_filter_witness :
    (handle_irc_line ['t', 'e', 's', 't']
        [':', 'h', 'i', 'k', 'a', 'k', 'i', 'n', '!', 'h', '@', 'h', ' ',
         'P', 'R', 'I', 'V', 'M', 'S', 'G', ' ', '#', 't', 'e', 's', 't', ' ',
         ':', 'h', 'e', 'l', 'l', 'o']).jobs
      = [build_tweet (normalize_message_text ['h', 'e', 'l', 'l', 'o'])] :=
  (C6_chat_filter ['t', 'e', 's', 't']
      [':', 'h', 'i', 'k', 'a', 'k', 'i', 'n', '!', 'h', '@', 'h', ' ',
       'P', 'R', 'I', 'V', 'M', 'S', 'G', ' ', '#', 't', 'e', 's', 't', ' ',
       ':', 'h', 'e', 'l', 'l', 'o'] (by decide)).2
    ['h', 'i', 'k', 'a', 'k', 'i', 'n'] ['t', 'e', 's', 't'] ['h', 'e', 'l', 'l', 'o']
    (by decide) (by decide) (by decide) (by decide)

theorem applyYoutubeInfos_events_counts (cfg : MonitorConfig) (now : ℚ)
    (yts : List (String × YouTubeStreamInfo)) (sid : String) :
    ∀ channels,
      ((applyYoutubeInfos cfg now channels yts).2).countP (isHistoryEventFor sid) = 0 ∧
      ((applyYoutubeInfos cfg now channels yts).2).countP (isSummaryEventFor sid) = 0 := by
  induction yts with
  | nil =>
    intro channels
    simp [applyYoutubeInfos]
  | cons p rest ih =>
    intro channels
    obtain ⟨cid, yi⟩ := p
    simp only [applyYoutubeInfos, List.countP_cons]
    constructor
    · have := (ih (setAssoc cid
        (ytChannelStep cfg now (channels.lookup cid) cid yi) channels)).1
      simp [this, isHistoryEventFor]
    · have := (ih (setAssoc cid
        (ytChannelStep cfg now (channels.lookup cid) cid yi) channels)).2
      simp [this, isSummaryEventFor]

/-- C1 (amended): on a primary-stream id change while a session is active,
provided the poll instant is after the superseded session's start time,
exactly one history record and exactly one summary publish occur for the
superseded session within the iteration — but they occur *after* the newly
created session has accepted its first viewer sample: the iteration's trace
begins with the new session's sample, and the history and summary events
each occur exactly once in the remainder. -/
theorem C1_session_replace_amended (cfg : MonitorConfig) (st : MonitorState)
    (info : TwitchStreamInfo) (now : ℚ)
    (youtube_infos : List (String × YouTubeStreamInfo)) (cur : StreamSession)
    (hs : st.session = some cur)
    (hid : ¬ (cur.stream_id = info.stream_id))
    (hstart : cur.started_at < now) :
    ∃ rest,
      (handle_stream_live cfg st info now youtube_infos).2
        = MonitorEvent.twitchSample info.stream_id (mkSample now info.viewer_count)
            :: rest ∧
      rest.countP (isHistoryEventFor cur.stream_id) = 1 ∧
      rest.countP (isSummaryEventFor cur.stream_id) = 1 := by
  obtain ⟨sess, hist⟩ := st
  have hs' : sess = some cur := hs
  subst hs'
  have hsev : (post_session_summary hist cur now).2
      = [MonitorEvent.historyRecorded cur.stream_id cur.started_at now,
         MonitorEvent.summaryEnqueued cur.stream_id] := by
    unfold post_session_summary record_stream_history
    rw [if_neg (not_le.mpr hstart)]
    rfl
  refine ⟨(applyYoutubeInfos cfg now (newStreamSession cfg info).youtube_channels
      youtube_infos).2 ++ (post_session_summary hist cur now).2, ?_, ?_, ?_⟩
  · simp only [handle_stream_live]
    rw [if_neg hid]
    rfl
  · rw [List.countP_append, hsev,
      (applyYoutubeInfos_events_counts cfg now youtube_infos cur.stream_id
        (newStreamSession cfg info).youtube_channels).1]
    simp [isHistoryEventFor, isSummaryEventFor]
  · rw [List.countP_append, hsev,
      (applyYoutubeInfos_events_counts cfg now youtube_infos cur.stream_id
        (newStreamSession cfg info).youtube_channels).2]
    simp [isHistoryEventFor, isSummaryEventFor]

theorem handle_stream_live_replace_trace (cfg : MonitorConfig) (st : MonitorState)
    (info : TwitchStreamInfo) (now : ℚ)
    (yts : List (String × YouTubeStreamInfo)) (cur : StreamSession)
    (hs : st.session = some cur) (hid : ¬ (cur.stream_id = info.stream_id)) :
    (handle_stream_live cfg st info now yts).2
      = MonitorEvent.twitchSample info.stream_id (mkSample now info.viewer_count)
          :: (applyYoutubeInfos cfg now (newStreamSession cfg info).youtube_channels yts).2
          ++ (post_session_summary st.stream_history cur now).2 := by
  obtain ⟨sess, hist⟩ := st
  have hs' : sess = some cur := hs
  subst hs'
  simp only [handle_stream_live]
  rw [if_neg hid]

theorem post_session_summary_events (hist : List StreamHistoryRecord)
    (cur : StreamSession) (ended_at : ℚ) (h : cur.started_at < ended_at) :
    (post_session_summary hist cur ended_at).2
      = [MonitorEvent.historyRecorded cur.stream_id cur.started_at ended_at,
         MonitorEvent.summaryEnqueued cur.stream_id] := by
  unfold post_session_summary record_stream_history
  rw [if_neg (not_le.mpr h)]
  rfl

/-- Witness for C1 (amended) at a concrete session replacement. -/
theorem C1_session_replace_amended_witness :
    ((handle_stream_live ⟨5000, 5000, []⟩ ⟨some ⟨("old"), 10, ("t"), [], [], []⟩, []⟩
        ⟨("new"), 20, 5, ("t2")⟩ 100 []).2).countP (isHistoryEventFor ("old")) = 1 ∧
    ((handle_stream_live ⟨5000, 5000, []⟩ ⟨some ⟨("old"), 10, ("t"), [], [], []⟩, []⟩
        ⟨("new"), 20, 5, ("t2")⟩ 100 []).2).countP (isSummaryEventFor ("old")) = 1 := by
  obtain ⟨rest, htr, h1, h2⟩ := C1_session_replace_amended ⟨5000, 5000, []⟩
    ⟨some ⟨("old"), 10, ("t"), [], [], []⟩, []⟩ ⟨("new"), 20, 5, ("t2")⟩ 100 []
    ⟨("old"), 10, ("t"), [], [], []⟩ rfl (by decide) (by norm_num)
  rw [htr]
  constructor
  · rw [List.countP_cons]
    simp only [isHistoryEventFor]
    rw [h1]
    simp
  · rw [List.countP_cons]
    simp only [isSummaryEventFor]
    rw [h2]
    simp

/-- C1 (counterexample): the claim requires the superseded session's summary
publish and history record to occur before the new session accepts its first
viewer sample.  At this concrete replacement iteration the trace shows the
opposite order: the new session's first sample is the first event, and the
history record and summary publish follow it. -/
theorem C1_session_order_counterexample :
    (handle_stream_live ⟨5000, 5000, []⟩ ⟨some ⟨("old"), 10, ("t"), [], [], []⟩, []⟩
        ⟨("new"), 20, 5, ("t2")⟩ 100 []).2
      = [MonitorEvent.twitchSample ("new") (mkSample 100 5),
         MonitorEvent.historyRecorded ("old") 10 100,
         MonitorEvent.summaryEnqueued ("old")] ∧
    ¬ (List.findIdx (isHistoryEventFor ("old"))
          ((handle_stream_live ⟨5000, 5000, []⟩
            ⟨some ⟨("old"), 10, ("t"), [], [], []⟩, []⟩
            ⟨("new"), 20, 5, ("t2")⟩ 100 []).2)
        < List.findIdx (isTwitchSampleFor ("new"))
          ((handle_stream_live ⟨5000, 5000, []⟩
            ⟨some ⟨("old"), 10, ("t"), [], [], []⟩, []⟩
            ⟨("new"), 20, 5, ("t2")⟩ 100 []).2)) ∧
    ¬ (List.findIdx (isSummaryEventFor ("old"))
          ((handle_stream_live ⟨5000, 5000, []⟩
            ⟨some ⟨("old"), 10, ("t"), [], [], []⟩, []⟩
            ⟨("new"), 20, 5, ("t2")⟩ 100 []).2)
        < List.findIdx (isTwitchSampleFor ("new"))
          ((handle_stream_live ⟨5000, 5000, []⟩
            ⟨some ⟨("old"), 10, ("t"), [], [], []⟩, []⟩
            ⟨("new"), 20, 5, ("t2")⟩ 100 []).2)) := by
  have htr : (handle_stream_live ⟨5000, 5000, []⟩
      ⟨some ⟨("old"), 10, ("t"), [], [], []⟩, []⟩
      ⟨("new"), 20, 5, ("t2")⟩ 100 []).2
      = [MonitorEvent.twitchSample ("new") (mkSample 100 5),
         MonitorEvent.historyRecorded ("old") 10 100,
         MonitorEvent.summaryEnqueued ("old")] := by
    rw [handle_stream_live_replace_trace ⟨5000, 5000, []⟩
      ⟨some ⟨("old"), 10, ("t"), [], [], []⟩, []⟩ ⟨("new"), 20, 5, ("t2")⟩ 100 []
      ⟨("old"), 10, ("t"), [], [], []⟩ rfl (by decide)]
    rw [post_session_summary_events [] ⟨("old"), 10, ("t"), [], [], []⟩ 100 (by norm_num)]
    rfl
  refine ⟨htr, ?_, ?_⟩
  · rw [htr]
    decide
  · rw [htr]
    decide

theorem recordMonthContribution_seconds (tz start_timestamp end_timestamp : ℚ)
    (r : StreamHistoryRecord) :
    (recordMonthContribution tz start_timestamp end_timestamp r).1
      = max 0 (min r.ended_at end_timestamp - max r.started_at start_timestamp) := by
  unfold recordMonthContribution
  split
  · rename_i h
    rcases h with h | h
    · have h1 : min r.ended_at end_timestamp ≤ r.ended_at := min_le_left _ _
      have h2 : start_timestamp ≤ max r.started_at start_timestamp := le_max_right _ _
      have : min r.ended_at end_timestamp - max r.started_at start_timestamp ≤ 0 := by
        linarith
      simp [max_eq_left this]
    · have h1 : min r.ended_at end_timestamp ≤ end_timestamp := min_le_right _ _
      have h2 : r.started_at ≤ max r.started_at start_timestamp := le_max_left _ _
      have : min r.ended_at end_timestamp - max r.started_at start_timestamp ≤ 0 := by
        linarith
      simp [max_eq_left this]
  · split
    · rename_i h2
      have : min r.ended_at end_timestamp - max r.started_at start_timestamp ≤ 0 := by
        linarith
      simp [max_eq_left this]
    · rename_i h1 h2
      push_neg at h2
      have : (0:ℚ) ≤ min r.ended_at end_timestamp - max r.started_at start_timestamp := by
        linarith
      simp [max_eq_right this]

theorem recordMonthContribution_days (tz start_timestamp end_timestamp : ℚ)
    (r : StreamHistoryRecord) :
    (recordMonthContribution tz start_timestamp end_timestamp r).2
      = amendedActiveDays tz start_timestamp end_timestamp r := by
  unfold recordMonthContribution amendedActiveDays
  split
  · rename_i h
    have hc : min r.ended_at end_timestamp ≤ max r.started_at start_timestamp := by
      rcases h with h | h
      · have h1 : min r.ended_at end_timestamp ≤ r.ended_at := min_le_left _ _
        have h2 : start_timestamp ≤ max r.started_at start_timestamp := le_max_right _ _
        linarith
      · have h1 : min r.ended_at end_timestamp ≤ end_timestamp := min_le_right _ _
        have h2 : r.started_at ≤ max r.started_at start_timestamp := le_max_left _ _
        linarith
    rw [if_pos hc]
  · split
    · rfl
    · rfl

theorem foldl_add_eq_sum_map (f : StreamHistoryRecord → ℚ)
    (l : List StreamHistoryRecord) :
    ∀ a : ℚ, l.foldl (fun acc r => acc + f r) a = a + (l.map f).sum := by
  induction l with
  | nil => intro a; simp
  | cons x xs ih =>
    intro a
    simp only [List.foldl_cons, List.map_cons, List.sum_cons]
    rw [ih (a + f x)]
    ring

/-- C3 (amended): each history record contributes
`max(0, min(E, W_end) - max(S, W_start))` seconds to the monthly total, and
the calendar days it marks active are exactly those from the overlap's start
date through the date of `max(overlap_start, overlap_end - 1 second)` — the
clamp `max(overlap_start, ...)` present in the code but missing from the
claim.  The quoted instance holds: record `(1000, 5000)` against window
`[2000, 4000)` yields 2000 overlap seconds and exactly the calendar days
spanned by timestamps 2000 through 3999. -/
theorem C3_overlap_amended :
    (∀ (tz start_timestamp end_timestamp : ℚ) (history : List StreamHistoryRecord),
      (calculate_monthly_stats tz history start_timestamp end_timestamp).2
        = (history.map (fun r =>
            max 0 (min r.ended_at end_timestamp - max r.started_at start_timestamp))).sum
      ∧ (calculate_monthly_stats tz history start_timestamp end_timestamp).1
        = (history.foldl (fun acc r =>
            acc ∪ amendedActiveDays tz start_timestamp end_timestamp r) ∅).card) ∧
    (∀ (tz start_timestamp end_timestamp : ℚ) (r : StreamHistoryRecord),
      (recordMonthContribution tz start_timestamp end_timestamp r).2
        = amendedActiveDays tz start_timestamp end_timestamp r) ∧
    ((calculate_monthly_stats 0 [⟨("s"), 1000, 5000⟩] 2000 4000).2 = 2000 ∧
     (calculate_monthly_stats 0 [⟨("s"), 1000, 5000⟩] 2000 4000).1 = 1 ∧
     (recordMonthContribution 0 2000 4000 ⟨("s"), 1000, 5000⟩).2
        = Finset.Icc (dateOf 0 2000) (dateOf 0 3999)) := by
  have hmin : min (5000:ℚ) 4000 = 4000 := min_eq_right (by norm_num)
  have hmax : max (1000:ℚ) 2000 = 2000 := max_eq_right (by norm_num)
  have hmax2 : max (2000:ℚ) 3999 = 3999 := max_eq_right (by norm_num)
  have hrc : recordMonthContribution 0 2000 4000 ⟨("s"), 1000, 5000⟩
      = (2000, Finset.Icc (dateOf 0 2000) (dateOf 0 3999)) := by
    unfold recordMonthContribution
    rw [if_neg (by norm_num)]
    simp only [hmin, hmax, hmax2]
    rw [if_neg (by norm_num)]
    norm_num
  have hd2000 : dateOf 0 2000 = 0 := by
    unfold dateOf
    rw [Int.floor_eq_iff]
    constructor
    · norm_num
    · rw [show ((0:Int):ℚ) + 1 = 1 by norm_num]
      rw [div_lt_one (by norm_num : (0:ℚ) < 86400)]
      norm_num
  have hd3999 : dateOf 0 3999 = 0 := by
    unfold dateOf
    rw [Int.floor_eq_iff]
    constructor
    · norm_num
    · rw [show ((0:Int):ℚ) + 1 = 1 by norm_num]
      rw [div_lt_one (by norm_num : (0:ℚ) < 86400)]
      norm_num
  refine ⟨?_, recordMonthContribution_days, ?_, ?_, ?_⟩
  · intro tz ws we history
    constructor
    · show List.foldl (fun acc r => acc + (recordMonthContribution tz ws we r).1) 0 history
        = _
      rw [foldl_add_eq_sum_map (fun r => (recordMonthContribution tz ws we r).1) history 0]
      rw [zero_add]
      congr 1
      apply List.map_congr_left
      intro r _
      exact recordMonthContribution_seconds tz ws we r
    · show (List.foldl (fun acc r => acc ∪ (recordMonthContribution tz ws we r).2)
          ∅ history).card = _
      have hf : (fun (acc : Finset Int) r => acc ∪ (recordMonthContribution tz ws we r).2)
          = fun acc r => acc ∪ amendedActiveDays tz ws we r := by
        funext acc r
        rw [recordMonthContribution_days]
      rw [hf]
  · show (0:ℚ) + (recordMonthContribution 0 2000 4000 ⟨("s"), 1000, 5000⟩).1 = 2000
    rw [hrc]
    norm_num
  · show ((∅ : Finset Int)
        ∪ (recordMonthContribution 0 2000 4000 ⟨("s"), 1000, 5000⟩).2).card = 1
    rw [hrc]
    simp [hd2000, hd3999]
  · rw [hrc]

/-- C3 (counterexample): a record overlapping the window by half a second
starting exactly at a day boundary.  The code marks the overlap's start day
active (the clamp `max(overlap_start, overlap_end - 1)`), while the claim's
range "from the overlap's start date through the date of overlap_end - 1
second" is empty, since `overlap_end - 1` falls on the previous day. -/
theorem C3_overlap_counterexample :
    (recordMonthContribution 0 86400 172800 ⟨("s"), 86300, 86400 + (1:ℚ)/2⟩).2
      = {(1 : Int)} ∧
    claimActiveDays 0 86400 172800 ⟨("s"), 86300, 86400 + (1:ℚ)/2⟩ = ∅ ∧
    ({(1 : Int)} : Finset Int) ≠ ∅ ∧
    (calculate_monthly_stats 0 [⟨("s"), 86300, 86400 + (1:ℚ)/2⟩] 86400 172800).1 = 1 := by
  have hmin : min (86400 + (1:ℚ)/2) 172800 = 86400 + 1/2 := min_eq_left (by norm_num)
  have hmax : max (86300:ℚ) 86400 = 86400 := max_eq_right (by norm_num)
  have hclamp : max (86400:ℚ) (86400 + 1/2 - 1) = 86400 := max_eq_left (by norm_num)
  have hd1 : dateOf 0 86400 = 1 := by
    unfold dateOf
    rw [show ((86400:ℚ) + 0) / 86400 = 1 by norm_num]
    exact Int.floor_one
  have hd0 : dateOf 0 (86400 + (1:ℚ)/2 - 1) = 0 := by
    unfold dateOf
    rw [Int.floor_eq_iff]
    constructor
    · norm_num
    · rw [show ((0:Int):ℚ) + 1 = 1 by norm_num]
      rw [div_lt_one (by norm_num : (0:ℚ) < 86400)]
      norm_num
  have hrc : recordMonthContribution 0 86400 172800 ⟨("s"), 86300, 86400 + (1:ℚ)/2⟩
      = ((1:ℚ)/2, {(1 : Int)}) := by
    unfold recordMonthContribution
    rw [if_neg (by norm_num)]
    simp only [hmin, hmax, hclamp]
    rw [if_neg (by norm_num)]
    rw [hd1]
    norm_num [Finset.Icc_self]
  refine ⟨?_, ?_, by decide, ?_⟩
  · rw [hrc]
  · unfold claimActiveDays
    simp only [hmin, hmax]
    rw [if_neg (by norm_num)]
    rw [hd1, hd0]
    exact Finset.Icc_eq_empty (by decide)
  · show ((∅ : Finset Int)
        ∪ (recordMonthContribution 0 86400 172800 ⟨("s"), 86300, 86400 + (1:ℚ)/2⟩).2).card
      = 1
    rw [hrc]
    simp

theorem post_youtube_upcoming_go_spec (now : ℚ) (infos : List YouTubeUpcomingInfo) :
    ∀ posted : Finset String,
      (post_youtube_upcoming_go posted now infos).2.Nodup ∧
      (∀ id ∈ (post_youtube_upcoming_go posted now infos).2, id ∉ posted) ∧
      (post_youtube_upcoming_go posted now infos).1
        = posted ∪ (post_youtube_upcoming_go posted now infos).2.toFinset ∧
      (∀ id ∈ (post_youtube_upcoming_go posted now infos).2,
        ∃ i ∈ infos, i.video_id = id ∧ now < i.scheduled_start) := by
  induction infos with
  | nil =>
    intro posted
    simp [post_youtube_upcoming_go]
  | cons i rest ih =>
    intro posted
    by_cases h1 : i.video_id ∈ posted
    · have he : post_youtube_upcoming_go posted now (i :: rest)
          = post_youtube_upcoming_go posted now rest := by
        simp only [post_youtube_upcoming_go]
        rw [if_pos h1]
      rw [he]
      obtain ⟨n1, n2, n3, n4⟩ := ih posted
      exact ⟨n1, n2, n3, fun id hid => by
        obtain ⟨j, hj, hv, hs⟩ := n4 id hid
        exact ⟨j, List.mem_cons_of_mem i hj, hv, hs⟩⟩
    · by_cases h2 : i.scheduled_start ≤ now
      · have he : post_youtube_upcoming_go posted now (i :: rest)
            = post_youtube_upcoming_go posted now rest := by
          simp only [post_youtube_upcoming_go]
          rw [if_neg h1, if_pos h2]
        rw [he]
        obtain ⟨n1, n2, n3, n4⟩ := ih posted
        exact ⟨n1, n2, n3, fun id hid => by
          obtain ⟨j, hj, hv, hs⟩ := n4 id hid
          exact ⟨j, List.mem_cons_of_mem i hj, hv, hs⟩⟩
      · have he : post_youtube_upcoming_go posted now (i :: rest)
            = ((post_youtube_upcoming_go (insert i.video_id posted) now rest).1,
               i.video_id
                 :: (post_youtube_upcoming_go (insert i.video_id posted) now rest).2) := by
          simp only [post_youtube_upcoming_go]
          rw [if_neg h1, if_neg h2]
        rw [he]
        obtain ⟨n1, n2, n3, n4⟩ := ih (insert i.video_id posted)
        refine ⟨?_, ?_, ?_, ?_⟩
        · refine List.Nodup.cons ?_ n1
          intro hmem
          exact n2 i.video_id hmem (Finset.mem_insert_self _ _)
        · intro id hid
          rcases List.mem_cons.mp hid with hid | hid
          · rw [hid]; exact h1
          · intro hmem
            exact n2 id hid (Finset.mem_insert_of_mem hmem)
        · rw [n3]
          simp only [List.toFinset_cons]
          rw [Finset.insert_union, Finset.union_insert]
        · intro id hid
          rcases List.mem_cons.mp hid with hid | hid
          · exact ⟨i, List.mem_cons_self i rest, hid.symm, not_le.mp h2⟩
          · obtain ⟨j, hj, hv, hs⟩ := n4 id hid
            exact ⟨j, List.mem_cons_of_mem i hj, hv, hs⟩

/-- C8: within one poll iteration, the announced ids are pairwise distinct,
none of them was already in the durable set, every announced id is added to
the set, the cache is persisted exactly when something was announced, and an
announcement only fires for a result whose scheduled start is strictly in
the future; consequently, across any sequence of poll iterations, each video
id is announced at most once. -/
theorem C8_upcoming_at_most_once :
    (∀ (posted : Finset String) (infos : List YouTubeUpcomingInfo) (now : ℚ),
      (post_youtube_upcoming_infos posted infos now).2.1.Nodup ∧
      (∀ id ∈ (post_youtube_upcoming_infos posted infos now).2.1, id ∉ posted) ∧
      (post_youtube_upcoming_infos posted infos now).1
        = posted ∪ (post_youtube_upcoming_infos posted infos now).2.1.toFinset ∧
      (∀ id ∈ (post_youtube_upcoming_infos posted infos now).2.1,
        ∃ i ∈ infos, i.video_id = id ∧ now < i.scheduled_start) ∧
      ((post_youtube_upcoming_infos posted infos now).2.2 = true
        ↔ (post_youtube_upcoming_infos posted infos now).2.1 ≠ [])) ∧
    (∀ (posted : Finset String) (polls : List (List YouTubeUpcomingInfo × ℚ)),
      (run_upcoming_polls posted polls).2.Nodup ∧
      (∀ id ∈ (run_upcoming_polls posted polls).2, id ∉ posted)) := by
  have hbase : ∀ (posted : Finset String) (infos : List YouTubeUpcomingInfo) (now : ℚ),
      (post_youtube_upcoming_infos posted infos now).2.1.Nodup ∧
      (∀ id ∈ (post_youtube_upcoming_infos posted infos now).2.1, id ∉ posted) ∧
      (post_youtube_upcoming_infos posted infos now).1
        = posted ∪ (post_youtube_upcoming_infos posted infos now).2.1.toFinset ∧
      (∀ id ∈ (post_youtube_upcoming_infos posted infos now).2.1,
        ∃ i ∈ infos, i.video_id = id ∧ now < i.scheduled_start) ∧
      ((post_youtube_upcoming_infos posted infos now).2.2 = true
        ↔ (post_youtube_upcoming_infos posted infos now).2.1 ≠ []) := by
    intro posted infos now
    unfold post_youtube_upcoming_infos
    by_cases hempty : infos.isEmpty
    · rw [if_pos hempty]
      simp
    · rw [if_neg hempty]
      obtain ⟨n1, n2, n3, n4⟩ := post_youtube_upcoming_go_spec now infos posted
      exact ⟨n1, n2, n3, n4, by simp⟩
  constructor
  · exact hbase
  · intro posted polls
    induction polls generalizing posted with
    | nil => simp [run_upcoming_polls]
    | cons p rest ih =>
      obtain ⟨infos, now⟩ := p
      have he : run_upcoming_polls posted ((infos, now) :: rest)
          = ((run_upcoming_polls (post_youtube_upcoming_infos posted infos now).1 rest).1,
             (post_youtube_upcoming_infos posted infos now).2.1
               ++ (run_upcoming_polls
                    (post_youtube_upcoming_infos posted infos now).1 rest).2) := by
        simp only [run_upcoming_polls]
      rw [he]
      obtain ⟨b1, b2, b3, _, _⟩ := hbase posted infos now
      obtain ⟨r1, r2⟩ := ih (post_youtube_upcoming_infos posted infos now).1
      constructor
      · rw [List.nodup_append]
        refine ⟨b1, r1, ?_⟩
        intro id hid hid2
        have := r2 id hid2
        rw [b3] at this
        exact this (Finset.mem_union_right posted (List.mem_toFinset.mpr hid))
      · intro id hid
        rcases List.mem_append.mp hid with hid | hid
        · exact b2 id hid
        · intro hmem
          have := r2 id hid
          rw [b3] at this
          exact this (Finset.mem_union_left _ hmem)

/-- Witness for C8 at a concrete iteration: one future-scheduled upcoming
video against an empty durable set is announced, and the theorem's
guarantees instantiate to it. -/
theorem C8_upcoming_at_most_once_witness :
    (post_youtube_upcoming_infos ∅ [⟨("v"), 10, ("t"), ("c"), ("u")⟩] 0).2.1.Nodup ∧
    ("v") ∉ (∅ : Finset String) := by
  refine ⟨(C8_upcoming_at_most_once.1 ∅ [⟨("v"), 10, ("t"), ("c"), ("u")⟩] 0).1, ?_⟩
  have hmem : ("v") ∈ (post_youtube_upcoming_infos ∅
      [⟨("v"), 10, ("t"), ("c"), ("u")⟩] 0).2.1 := by
    have he : (post_youtube_upcoming_infos ∅
        [⟨("v"), 10, ("t"), ("c"), ("u")⟩] 0).2.1 = [("v")] := by
      unfold post_youtube_upcoming_infos post_youtube_upcoming_go
      rw [if_neg (by simp)]
      rw [if_neg (by simp)]
      rw [if_neg (by norm_num : ¬ ((10:ℚ) ≤ 0))]
      rfl
    rw [he]
    simp
  exact (C8_upcoming_at_most_once.1 ∅ [⟨("v"), 10, ("t"), ("c"), ("u")⟩] 0).2.1 ("v") hmem
